import Mathlib

/-!
# Perizia Analyzer — verification of the document-intake and extraction pipeline

Shallow embedding of the TypeScript sources of the Perizia Analyzer
repository (Italian judicial-auction appraisal analyzer), together with
theorems settling the specification claims about:

* blank-page classification during PDF rasterization (`renderIsBlank`);
* the deterministic confidence scorer (`calculateConfidence`);
* the text-quality classifier (`checkTextQuality`);
* monetary-amount normalization and extraction (`normalizeAmount`,
  `extractAmounts`);
* date extraction (`extractDates`);
* the keyword section finder (`findSectionCandidates`);
* the expert-value field extractor (`extractExpertValue`);
* the multi-engine PDF text-extraction chain (`extractPdfText`);
* the Vision-OCR orchestrator (`visionOcrPages`).

JavaScript numbers are modelled as `ℚ` (all constants in the code are
short decimals), strings as Lean `String`/`List Char`.  External effects
(the regex engine where noted, network calls, the filesystem) are
abstracted as explicit inputs; each definition's doc comment records the
source function it translates.
-/

namespace Perizia

/-- Distance between two natural numbers, `|a - b|` in the JS sources. -/
def natDist (a b : Nat) : Nat := max a b - min a b

/-- `Math.round` of JavaScript on a rational: round half away from zero is
round half up for the nonnegative values that occur here. -/
def jsRound (q : ℚ) : ℤ := ⌊q + 1/2⌋

/-- JS `a.includes(b)` on strings: substring containment. -/
def containsStr (s pat : String) : Bool := decide (pat.data <:+: s.data)

/-- JS `s.toLowerCase()` / `s.toUpperCase()`, as Lean's ASCII per-character
case mapping. -/
def strToLower (s : String) : String := String.mk (s.data.map Char.toLower)

/-- ASCII per-character upper-casing. -/
def strToUpper (s : String) : String := String.mk (s.data.map Char.toUpper)

/-- JS `s.trim()`: strip leading and trailing whitespace. -/
def strTrim (s : String) : String :=
  String.mk (((s.data.dropWhile (fun c => c.isWhitespace)).reverse.dropWhile
    (fun c => c.isWhitespace)).reverse)

/-! ## Blank-page classification (`renderPdfPages`, pdf rendering module)

In the success path of `renderPdfPages`, each rendered page is classified
by `const isBlank = (whiteness >= 0 && whiteness > 0.97) || bytes < 8_000;`
where `whiteness` is the fraction of white pixels (or `-1` when it could
not be computed) and `bytes` the JPEG size. -/

/-- Translation of the blank classification of the success path of
`renderPdfPages`. -/
def renderIsBlank (whiteness : ℚ) (bytes : Nat) : Bool :=
  (decide (0 ≤ whiteness) && decide (97/100 < whiteness)) || decide (bytes < 8000)

/-! ## Confidence scorer (`src/lib/extraction/confidence.ts`) -/

/-- `SectionCandidate` of `src/types`: a keyword-anchored text window. -/
structure SectionCandidate where
  text : String
  page : Nat
  startOffset : Nat
  endOffset : Nat
  matchedKeywords : List String
  isTitle : Bool
  score : Nat
deriving DecidableEq

/-- The running `score` accumulated by `calculateConfidence` (confidence.ts)
before rounding: keyword-match term, title bonus, text-length bonus,
candidate-scarcity bonus. -/
def rawConfidenceScore (candidate : SectionCandidate) (totalCandidates : Nat) : ℚ :=
  min ((candidate.matchedKeywords.length : ℚ) / 4) 1 * (4/10)
    + (if candidate.isTitle then 25/100 else 0)
    + (if 200 < candidate.text.length then 15/100
       else if 50 < candidate.text.length then 8/100 else 0)
    + (if totalCandidates = 1 then 2/10
       else if totalCandidates = 2 then 1/10
       else if totalCandidates ≤ 3 then 5/100 else 0)

/-- Translation of `calculateConfidence` (confidence.ts): the accumulated
score, rounded to two decimals (`Math.round(score * 100) / 100`) and capped
at 1 by `Math.min`. -/
def calculateConfidence (candidate : SectionCandidate) (totalCandidates : Nat) : ℚ :=
  min ((jsRound (rawConfidenceScore candidate totalCandidates * 100) : ℚ) / 100) 1

/-- The confidence contract as the specification words it: the same additive
formula, rounded to two decimals and clamped to `[0, 1]`. -/
def confidenceSpecFormula (candidate : SectionCandidate) (totalCandidates : Nat) : ℚ :=
  max 0 (min ((jsRound (rawConfidenceScore candidate totalCandidates * 100) : ℚ) / 100) 1)

/-- The candidate-scarcity bonus expressed in hundredths. -/
def scarcityNat (totalCandidates : Nat) : Nat :=
  if totalCandidates = 1 then 20
  else if totalCandidates = 2 then 10
  else if totalCandidates ≤ 3 then 5 else 0

theorem jsRound_natCast (n : ℕ) : jsRound (n : ℚ) = n := by
  unfold jsRound
  rw [Int.floor_eq_iff]
  constructor
  · push_cast; linarith
  · push_cast; linarith

theorem rawConfidenceScore_decomp (c : SectionCandidate) :
    ∃ b : ℕ, b ≤ 80 ∧ ∀ t : Nat,
      rawConfidenceScore c t = ((b : ℚ) + (scarcityNat t : ℚ)) / 100 := by
  obtain ⟨a, ha, hka⟩ :
      ∃ a : ℕ, a ≤ 40 ∧ min ((c.matchedKeywords.length : ℚ) / 4) 1 * (4/10) = (a : ℚ) / 100 := by
    rcases le_or_lt 4 c.matchedKeywords.length with h | h
    · refine ⟨40, le_refl _, ?_⟩
      have h4 : (4 : ℚ) ≤ (c.matchedKeywords.length : ℚ) := by exact_mod_cast h
      rw [min_eq_right (by rw [le_div_iff₀ (by norm_num)]; linarith)]
      norm_num
    · refine ⟨10 * c.matchedKeywords.length, by omega, ?_⟩
      have h4 : (c.matchedKeywords.length : ℚ) ≤ 3 := by exact_mod_cast Nat.lt_succ_iff.mp h
      rw [min_eq_left (by rw [div_le_one (by norm_num)]; linarith)]
      push_cast
      ring
  obtain ⟨a2, ha2, hti⟩ :
      ∃ a2 : ℕ, a2 ≤ 25 ∧ (if c.isTitle then (25 : ℚ)/100 else 0) = (a2 : ℚ) / 100 := by
    cases c.isTitle
    · exact ⟨0, by norm_num, by norm_num⟩
    · exact ⟨25, le_refl _, by norm_num⟩
  obtain ⟨a3, ha3, hlen⟩ :
      ∃ a3 : ℕ, a3 ≤ 15 ∧ (if 200 < c.text.length then (15 : ℚ)/100
        else if 50 < c.text.length then 8/100 else 0) = (a3 : ℚ) / 100 := by
    by_cases h1 : 200 < c.text.length
    · exact ⟨15, le_refl _, by simp [h1]⟩
    · by_cases h2 : 50 < c.text.length
      · exact ⟨8, by norm_num, by simp [h1, h2]⟩
      · exact ⟨0, by norm_num, by simp [h1, h2]⟩
  refine ⟨a + a2 + a3, by omega, fun t => ?_⟩
  have hsc : (if t = 1 then (2 : ℚ)/10 else if t = 2 then 1/10 else if t ≤ 3 then 5/100 else 0)
      = (scarcityNat t : ℚ) / 100 := by
    unfold scarcityNat
    split_ifs <;> norm_num
  unfold rawConfidenceScore
  rw [hka, hti, hlen, hsc]
  push_cast
  ring

theorem calculateConfidence_closed (c : SectionCandidate) :
    ∃ b : ℕ, b ≤ 80 ∧ ∀ t : Nat,
      calculateConfidence c t = ((b : ℚ) + (scarcityNat t : ℚ)) / 100 := by
  obtain ⟨b, hb, hraw⟩ := rawConfidenceScore_decomp c
  refine ⟨b, hb, fun t => ?_⟩
  have hs : scarcityNat t ≤ 20 := by unfold scarcityNat; split_ifs <;> omega
  have hcast : ((b : ℚ) + (scarcityNat t : ℚ)) = ((b + scarcityNat t : ℕ) : ℚ) := by push_cast; ring
  unfold calculateConfidence
  rw [hraw t, div_mul_cancel₀ _ (by norm_num : (100 : ℚ) ≠ 0), hcast, jsRound_natCast]
  push_cast
  rw [min_eq_left]
  rw [div_le_one (by norm_num)]
  have h1 : (b : ℚ) ≤ 80 := by exact_mod_cast hb
  have h2 : (scarcityNat t : ℚ) ≤ 20 := by exact_mod_cast hs
  linarith

/-- C6: the confidence scorer is a deterministic function of the candidate
and the total candidate count, equal to the additive formula of the spec
(keyword term capped at 0.4, title bonus 0.25, length bonus 0.15/0.08,
scarcity bonus 0.2/0.1/0.05) rounded to two decimals and clamped to
`[0, 1]`; it always lies in `[0, 1]`, and for any fixed candidate the score
with exactly one total candidate is strictly greater than the score of the
same candidate among five total candidates. -/
theorem confidence_bounds_and_scarcity :
    (∀ (c : SectionCandidate) (t : Nat),
        calculateConfidence c t = confidenceSpecFormula c t
        ∧ 0 ≤ calculateConfidence c t
        ∧ calculateConfidence c t ≤ 1)
    ∧ (∀ c : SectionCandidate, calculateConfidence c 5 < calculateConfidence c 1) := by
  have key : ∀ (c : SectionCandidate) (t : Nat),
      0 ≤ calculateConfidence c t ∧ calculateConfidence c t ≤ 1 := by
    intro c t
    obtain ⟨b, hb, hval⟩ := calculateConfidence_closed c
    have hs : scarcityNat t ≤ 20 := by unfold scarcityNat; split_ifs <;> omega
    constructor
    · rw [hval t]
      positivity
    · rw [hval t, div_le_one (by norm_num)]
      have h1 : (b : ℚ) ≤ 80 := by exact_mod_cast hb
      have h2 : (scarcityNat t : ℚ) ≤ 20 := by exact_mod_cast hs
      linarith
  refine ⟨fun c t => ⟨?_, key c t⟩, fun c => ?_⟩
  · unfold confidenceSpecFormula calculateConfidence
    rw [max_eq_right]
    exact (key c t).1
  · obtain ⟨b, _, hval⟩ := calculateConfidence_closed c
    rw [hval 1, hval 5]
    have h1 : scarcityNat 1 = 20 := by decide
    have h5 : scarcityNat 5 = 0 := by decide
    rw [h1, h5]
    push_cast
    rw [div_lt_div_iff₀ (by norm_num) (by norm_num)]
    linarith

/-- C3: for a successfully rendered page the blank classification is
exactly `whiteness > 0.97 OR bytes < 8000` (the extra `whiteness >= 0`
conjunct in the code is redundant for that formula): it is true at
whiteness 0.971 and at 7999 bytes, false at whiteness 0.969 and at 8001
bytes, and whiteness `-1` (could not compute) does not by itself make a
page blank — blankness then depends only on the byte size. -/
theorem blank_classification :
    (∀ (w : ℚ) (b : Nat), renderIsBlank w b = (decide (97/100 < w) || decide (b < 8000)))
    ∧ renderIsBlank (971/1000) 8000 = true
    ∧ renderIsBlank (1/2) 7999 = true
    ∧ renderIsBlank (969/1000) 8000 = false
    ∧ renderIsBlank (969/1000) 8001 = false
    ∧ (∀ b : Nat, renderIsBlank (-1) b = decide (b < 8000)) := by
  have main : ∀ (w : ℚ) (b : Nat),
      renderIsBlank w b = (decide (97/100 < w) || decide (b < 8000)) := by
    intro w b
    by_cases h : 97/100 < w
    · have h0 : (0 : ℚ) ≤ w := le_trans (by norm_num) h.le
      simp [renderIsBlank, h, h0]
    · simp [renderIsBlank, h]
  refine ⟨main, ?_, ?_, ?_, ?_, fun b => ?_⟩
  · rw [main]; norm_num
  · rw [main]; norm_num
  · rw [main]; norm_num
  · rw [main]; norm_num
  · have hneg : ¬ ((0 : ℚ) ≤ -1) := by norm_num
    simp [renderIsBlank, hneg]

/-! ## Text-quality classifier (`textQuality.ts`)

`checkTextQuality` analyses the concatenated per-page text of a PDF and
decides whether it is usable for direct LLM extraction.  The
`humanReason` display string (Italian, with `toFixed` number formatting)
is not modelled; `usable`, `reason` and the metrics record are. -/

/-- Watermark / access-control phrase vocabulary (`WATERMARK_PATTERNS`). -/
def WATERMARK_PATTERNS : List String :=
  ["pubblicazione ufficiale", "ad uso esclusivo", "riproduzione vietata",
   "riproduzione riservata", "min. giustizia", "ministero della giustizia",
   "aste giudiziarie", "uso personale", "non cedibile", "tribunale di"]

/-- Number of non-overlapping occurrences of `pat` in `s` (the JS code
counts matches of the escaped pattern with the `g` flag). -/
def countOccs (s pat : String) : Nat := (s.splitOn pat).length - 1

/-- Total watermark pattern occurrences in the lower-cased text. -/
def watermarkHitsOf (rawText : String) : Nat :=
  (WATERMARK_PATTERNS.map (fun pat => countOccs rawText.toLower pat)).sum

/-- The normalized lines considered by the repetition score: split on
newlines, trimmed, lower-cased, and only lines longer than 15 chars. -/
def linesOf (rawText : String) : List String :=
  ((rawText.splitOn "\n").map (fun l => l.trim.toLower)).filter (fun l => 15 < l.length)

/-- Line-repetition score: frequency of the single most frequent
normalized line, over the number of such lines (0 unless more than 10
lines qualify). -/
def repetitionScoreOf (rawText : String) : ℚ :=
  let lines := linesOf rawText
  if 10 < lines.length then
    (((lines.map (fun l => lines.count l)).foldr max 0 : Nat) : ℚ) / lines.length
  else 0

/-- Tokens considered by the unique-token ratio: whitespace-separated,
lower-cased, longer than 2 chars. -/
def tokensOf (rawText : String) : List String :=
  (rawText.toLower.split (fun c => c.isWhitespace)).filter (fun t => 2 < t.length)

/-- Unique-token ratio: distinct tokens over total tokens (0 when there
are no tokens). -/
def uniqueTokenRatioOf (rawText : String) : ℚ :=
  let tokens := tokensOf rawText
  if 0 < tokens.length then ((tokens.eraseDups).length : ℚ) / tokens.length else 0

/-- `pageCount > 0 ? len / pageCount : len`. -/
def avgCharsPerPage (len pageCount : Nat) : ℚ :=
  if 0 < pageCount then (len : ℚ) / pageCount else len

/-- `TextQualityMetrics` of textQuality.ts. -/
structure TextQualityMetrics where
  len : Nat
  avgCharsPerPage : ℚ
  repetitionScore : ℚ
  watermarkHits : Nat
  uniqueTokenRatio : ℚ
deriving DecidableEq

/-- `TextQualityResult` of textQuality.ts (without `humanReason`). -/
structure TextQualityResult where
  usable : Bool
  reason : String
  metrics : TextQualityMetrics
deriving DecidableEq

/-- Translation of `checkTextQuality` (textQuality.ts): length guard,
average-per-page guard, then repetition, watermark-density and
unique-token checks, in the source's order with early returns. -/
def checkTextQuality (rawText : String) (pageCount : Nat) : TextQualityResult :=
  let len := rawText.length
  let avg := avgCharsPerPage len pageCount
  if len < 1200 then ⟨false, "too_short", ⟨len, avg, 0, 0, 0⟩⟩
  else if avg < 200 then ⟨false, "low_avg_chars_per_page", ⟨len, avg, 0, 0, 0⟩⟩
  else
    let watermarkHits := watermarkHitsOf rawText
    let repetitionScore := repetitionScoreOf rawText
    let uniqueTokenRatio := uniqueTokenRatioOf rawText
    let metrics : TextQualityMetrics := ⟨len, avg, repetitionScore, watermarkHits, uniqueTokenRatio⟩
    if 1/5 < repetitionScore then ⟨false, "repeated_disclaimer", metrics⟩
    else if 1/4 < ((watermarkHits : ℚ) * 40) / ((max len 1 : Nat) : ℚ) ∧ len < 8000 then
      ⟨false, "watermark_dominated", metrics⟩
    else if uniqueTokenRatio < 12/100 ∧ len < 6000 then ⟨false, "low_unique_tokens", metrics⟩
    else ⟨true, "ok", metrics⟩

/-- The rejection cascade as the specification states it: the five rules in
order, first match wins, else `ok`. -/
def qualityReasonSpec (len : Nat) (avg rep density uniq : ℚ) : String :=
  if len < 1200 then "too_short"
  else if avg < 200 then "low_avg_chars_per_page"
  else if 1/5 < rep then "repeated_disclaimer"
  else if 1/4 < density ∧ len < 8000 then "watermark_dominated"
  else if uniq < 12/100 ∧ len < 6000 then "low_unique_tokens"
  else "ok"

/-- C2: the classifier applies its rejection rules in the stated order with
first match winning — its reason tag always equals the five-rule cascade
evaluated on the computed metrics, and it accepts (`usable`) exactly when
that cascade reaches `ok`; in particular any input of total length 900 is
rejected as `too_short` for every page count. -/
theorem textQuality_cascade :
    (∀ (rawText : String) (pageCount : Nat),
        (checkTextQuality rawText pageCount).reason =
          qualityReasonSpec rawText.length (avgCharsPerPage rawText.length pageCount)
            (repetitionScoreOf rawText)
            (((watermarkHitsOf rawText : ℚ) * 40) / ((max rawText.length 1 : Nat) : ℚ))
            (uniqueTokenRatioOf rawText)
        ∧ ((checkTextQuality rawText pageCount).usable =
            ((checkTextQuality rawText pageCount).reason == "ok")))
    ∧ (∀ (rawText : String) (pageCount : Nat), rawText.length = 900 →
        (checkTextQuality rawText pageCount).usable = false
        ∧ (checkTextQuality rawText pageCount).reason = "too_short") := by
  constructor
  · intro rawText pageCount
    simp only [checkTextQuality, qualityReasonSpec]
    split_ifs <;> exact ⟨rfl, rfl⟩
  · intro rawText pageCount h900
    have h : rawText.length < 1200 := by omega
    simp only [checkTextQuality]
    rw [if_pos h]
    exact ⟨rfl, rfl⟩

/-- Witness for C2: a concrete 900-character text is rejected `too_short`. -/
theorem textQuality_cascade_witness :
    (String.mk (List.replicate 900 'a')).length = 900
    ∧ (checkTextQuality (String.mk (List.replicate 900 'a')) 1).usable = false
    ∧ (checkTextQuality (String.mk (List.replicate 900 'a')) 1).reason = "too_short" := by
  have hlen : (String.mk (List.replicate 900 'a')).length = 900 := by
    show (List.replicate 900 'a').length = 900
    rw [List.length_replicate]
  exact ⟨hlen, (textQuality_cascade.2 _ 1 hlen).1, (textQuality_cascade.2 _ 1 hlen).2⟩

/-! ## Amount normalization and extraction (`src/lib/extraction/amount-extractor.ts`) -/

/-- Value of a list of decimal digit characters. -/
def digitsToNat (ds : List Char) : Nat :=
  ds.foldl (fun acc c => 10 * acc + (c.toNat - '0'.toNat)) 0

/-- Model of JavaScript `parseFloat`, restricted to the forms the amount
pipeline can produce: optional leading whitespace, optional sign, decimal
digits with an optional fractional part, ignoring any trailing garbage.
`none` models `NaN` (exponent notation and `Infinity` cannot occur in the
cleaned amount strings and are not modelled). -/
def parseFloatQ (s : String) : Option ℚ :=
  let cs := s.data.dropWhile (fun c => c.isWhitespace)
  let signAndRest : ℚ × List Char :=
    match cs with
    | '-' :: rest => (-1, rest)
    | '+' :: rest => (1, rest)
    | rest => (1, rest)
  let intDigits := signAndRest.2.takeWhile (fun c => c.isDigit)
  let rest := signAndRest.2.dropWhile (fun c => c.isDigit)
  let fracDigits :=
    match rest with
    | '.' :: r => r.takeWhile (fun c => c.isDigit)
    | _ => []
  if intDigits.isEmpty && fracDigits.isEmpty then none
  else some (signAndRest.1 *
    ((digitsToNat intDigits : ℚ) + (digitsToNat fracDigits : ℚ) / 10 ^ fracDigits.length))

/-- JS `String.lastIndexOf` for a single character (`-1` when absent). -/
def lastIdxOf (c : Char) : List Char → Int
  | [] => -1
  | x :: xs =>
    let r := lastIdxOf c xs
    if r ≠ -1 then r + 1
    else if x = c then 0 else -1

/-- JS `s.replace(',', '.')`: replace only the first comma by a dot. -/
def replaceFirstComma : List Char → List Char
  | [] => []
  | c :: cs => if c = ',' then '.' :: cs else c :: replaceFirstComma cs

/-- The separator-cleaning phase of `normalizeAmount` (amount-extractor.ts):
strip whitespace, then disambiguate dots and commas by the positions of the
last comma and the last dot, exactly as the source's if/else ladder. -/
def normalizeCleaned (raw : String) : List Char :=
  let cleaned := raw.data.filter (fun c => !c.isWhitespace)
  let lastComma := lastIdxOf ',' cleaned
  let lastDot := lastIdxOf '.' cleaned
  if lastDot < lastComma then
    replaceFirstComma (cleaned.filter (fun c => c != '.'))
  else if lastComma < lastDot then
    let afterLastDot := cleaned.drop (lastDot.toNat + 1)
    if afterLastDot.length = 3 ∧ afterLastDot.all (fun c => c.isDigit) then
      cleaned.filter (fun c => c != '.')
    else
      cleaned.filter (fun c => c != ',')
  else
    if lastComma ≠ -1 then replaceFirstComma cleaned else cleaned

/-- Translation of `normalizeAmount`: the cleaned string parsed as a
float, with `NaN` mapped to 0. -/
def normalizeAmount (raw : String) : ℚ :=
  (parseFloatQ (String.mk (normalizeCleaned raw))).getD 0

/-- The separator disambiguation rule as the specification words it
(refinement model): when the comma is rightmost, dots are removed and the
(first) comma becomes the decimal point; when the dot is rightmost with
exactly three digits after it, dots are thousands separators and are
removed; otherwise commas are removed and the dot is the decimal point. -/
def normalizeAmountSpec (raw : String) : ℚ :=
  let cleaned := raw.data.filter (fun c => !c.isWhitespace)
  let lastComma := lastIdxOf ',' cleaned
  let lastDot := lastIdxOf '.' cleaned
  let digitsForm :=
    if lastDot < lastComma then
      replaceFirstComma (cleaned.filter (fun c => c != '.'))
    else if lastComma < lastDot ∧ (cleaned.drop (lastDot.toNat + 1)).length = 3
        ∧ (cleaned.drop (lastDot.toNat + 1)).all (fun c => c.isDigit) then
      cleaned.filter (fun c => c != '.')
    else
      cleaned.filter (fun c => c != ',')
  (parseFloatQ (String.mk digitsForm)).getD 0

theorem neg_one_le_lastIdxOf (c : Char) (cs : List Char) : -1 ≤ lastIdxOf c cs := by
  induction cs with
  | nil => simp [lastIdxOf]
  | cons x xs ih =>
    simp only [lastIdxOf]
    split_ifs <;> omega

theorem lastIdxOf_eq_neg_one_iff (c : Char) (cs : List Char) :
    lastIdxOf c cs = -1 ↔ c ∉ cs := by
  induction cs with
  | nil => simp [lastIdxOf]
  | cons x xs ih =>
    simp only [lastIdxOf]
    split_ifs with h1 h2
    · have hge := neg_one_le_lastIdxOf c xs
      constructor
      · intro h; exfalso; omega
      · intro h
        exact absurd (ih.mpr (fun hm => h (List.mem_cons_of_mem _ hm))) h1
    · subst h2
      constructor
      · intro h; exact absurd h (by decide)
      · intro h; exact absurd (List.mem_cons_self _ _) h
    · constructor
      · intro _ hmem
        rcases List.mem_cons.mp hmem with h | h
        · exact h2 h.symm
        · exact (ih.mp (not_not.mp h1)) h
      · intro _; rfl

theorem lastIdxOf_getElem (c : Char) (cs : List Char) (h : lastIdxOf c cs ≠ -1) :
    cs[(lastIdxOf c cs).toNat]? = some c := by
  induction cs with
  | nil => simp [lastIdxOf] at h
  | cons x xs ih =>
    simp only [lastIdxOf] at h ⊢
    split_ifs at h ⊢ with h1 h2
    · have hge := neg_one_le_lastIdxOf c xs
      rw [show (lastIdxOf c xs + 1).toNat = (lastIdxOf c xs).toNat + 1 by omega]
      simpa using ih h1
    · simp [h2]
    · exact absurd rfl h

theorem lastIdxOf_distinct_eq (c d : Char) (hcd : c ≠ d) (cs : List Char)
    (h : lastIdxOf c cs = lastIdxOf d cs) : lastIdxOf c cs = -1 := by
  by_contra hne
  have hc := lastIdxOf_getElem c cs hne
  have hd := lastIdxOf_getElem d cs (by rw [← h]; exact hne)
  rw [h] at hc
  rw [hc] at hd
  exact hcd (Option.some.inj hd)

/-- C1 counterexample: on the full formatted string, currency sign
included, `normalizeAmount` returns 0 (the cleaned string `€123456.78`
is not parseable as a float), not 123456.78. -/
theorem normalizeAmount_euro_counterexample :
    normalizeAmount "€ 123.456,78" = 0 ∧ normalizeAmount "€ 123.456,78" ≠ 12345678/100 := by
  have h : normalizeAmount "€ 123.456,78" = 0 := by decide
  refine ⟨h, ?_⟩
  rw [h]
  norm_num

/-- C1 (amended): on the numeric token (the regex capture group strips the
currency sign), normalization round-trips the supported formats —
`123.456,78 ↦ 123456.78`, `300.000 ↦ 300000` (three digits after the last
dot mean dots are thousands separators), `5000,50 ↦ 5000.50` — and for
every string `normalizeAmount` implements exactly the claimed rule: comma
rightmost ⇒ dots removed and comma becomes the decimal point; dot
rightmost with exactly three trailing digits ⇒ dots removed; otherwise
commas removed and the dot is the decimal point. -/
theorem normalizeAmount_disambiguation :
    normalizeAmount "123.456,78" = 12345678/100
    ∧ normalizeAmount "300.000" = 300000
    ∧ normalizeAmount "5000,50" = 500050/100
    ∧ ∀ raw : String, normalizeAmount raw = normalizeAmountSpec raw := by
  have ex1 : normalizeAmount "123.456,78" = 12345678/100 := by
    have key : normalizeAmount "123.456,78" =
        (1 : ℚ) * ((digitsToNat ['1','2','3','4','5','6'] : ℚ)
          + (digitsToNat ['7','8'] : ℚ) / 10 ^ 2) := rfl
    have d1 : digitsToNat ['1','2','3','4','5','6'] = 123456 := by decide
    have d2 : digitsToNat ['7','8'] = 78 := by decide
    rw [key, d1, d2]
    norm_num
  have ex2 : normalizeAmount "300.000" = 300000 := by
    have key : normalizeAmount "300.000" =
        (1 : ℚ) * ((digitsToNat ['3','0','0','0','0','0'] : ℚ)
          + (digitsToNat [] : ℚ) / 10 ^ 0) := rfl
    have d1 : digitsToNat ['3','0','0','0','0','0'] = 300000 := by decide
    have d2 : digitsToNat [] = 0 := by decide
    rw [key, d1, d2]
    norm_num
  have ex3 : normalizeAmount "5000,50" = 500050/100 := by
    have key : normalizeAmount "5000,50" =
        (1 : ℚ) * ((digitsToNat ['5','0','0','0'] : ℚ)
          + (digitsToNat ['5','0'] : ℚ) / 10 ^ 2) := rfl
    have d1 : digitsToNat ['5','0','0','0'] = 5000 := by decide
    have d2 : digitsToNat ['5','0'] = 50 := by decide
    rw [key, d1, d2]
    norm_num
  refine ⟨ex1, ex2, ex3, fun raw => ?_⟩
  simp only [normalizeAmount, normalizeAmountSpec, normalizeCleaned]
  set cleaned := raw.data.filter (fun c => !c.isWhitespace) with hc
  by_cases h1 : lastIdxOf '.' cleaned < lastIdxOf ',' cleaned
  · rw [if_pos h1, if_pos h1]
  · rw [if_neg h1, if_neg h1]
    by_cases h2 : lastIdxOf ',' cleaned < lastIdxOf '.' cleaned
    · rw [if_pos h2]
      by_cases h3 : (cleaned.drop ((lastIdxOf '.' cleaned).toNat + 1)).length = 3
          ∧ (cleaned.drop ((lastIdxOf '.' cleaned).toNat + 1)).all (fun c => c.isDigit)
      · rw [if_pos h3, if_pos ⟨h2, h3.1, h3.2⟩]
      · rw [if_neg h3, if_neg (fun hh => h3 ⟨hh.2.1, hh.2.2⟩)]
    · have heq : lastIdxOf ',' cleaned = lastIdxOf '.' cleaned := by omega
      have hnone : lastIdxOf ',' cleaned = -1 :=
        lastIdxOf_distinct_eq ',' '.' (by decide) cleaned heq
      have hcomma : ',' ∉ cleaned := (lastIdxOf_eq_neg_one_iff ',' cleaned).mp hnone
      have hfilter : cleaned.filter (fun c => c != ',') = cleaned := by
        apply List.filter_eq_self.mpr
        intro a ha
        simp only [bne_iff_ne, ne_eq]
        intro hm; subst hm; exact hcomma ha
      have hsrc : ¬ lastIdxOf ',' cleaned ≠ -1 := not_not.mpr hnone
      have hspec : ¬(lastIdxOf ',' cleaned < lastIdxOf '.' cleaned
          ∧ (cleaned.drop ((lastIdxOf '.' cleaned).toNat + 1)).length = 3
          ∧ (cleaned.drop ((lastIdxOf '.' cleaned).toNat + 1)).all (fun c => c.isDigit) = true) :=
        fun hh => h2 hh.1
      rw [if_neg h2, if_neg hsrc, if_neg hspec, hfilter]

/-- `ExtractedAmount` of amount-extractor.ts. -/
structure ExtractedAmount where
  raw : String
  value : ℚ
  startIndex : Nat
deriving DecidableEq

/-- One match delivered by the JS regex engine while scanning
`AMOUNT_PATTERNS`: the whole match (`match[0]`), the captured numeric
group (`match[1] ?? match[0]`), and its index.  The regex engine itself is
abstracted: `extractAmounts` receives the per-pattern match lists
concatenated in scan order. -/
structure RawMatch where
  full : String
  captured : String
  index : Nat
deriving DecidableEq

/-- First phase of `extractAmounts` (amount-extractor.ts): walk the
matches with the `seen` index set, normalize each captured group, and keep
only strictly positive values. -/
def scanMatches (seen : List Nat) : List RawMatch → List ExtractedAmount
  | [] => []
  | m :: ms =>
    if m.index ∈ seen then scanMatches seen ms
    else
      let value := normalizeAmount m.captured
      if 0 < value then ⟨strTrim m.full, value, m.index⟩ :: scanMatches (m.index :: seen) ms
      else scanMatches (m.index :: seen) ms

/-- Second phase of `extractAmounts`: keep an amount only if no
already-kept amount has a start index within 3, or the same value with a
start index within 20. -/
def dedupAmounts (deduped : List ExtractedAmount) : List ExtractedAmount → List ExtractedAmount
  | [] => deduped
  | r :: rs =>
    if deduped.any (fun d => natDist d.startIndex r.startIndex < 3
        || (d.value == r.value && natDist d.startIndex r.startIndex < 20)) then
      dedupAmounts deduped rs
    else dedupAmounts (deduped ++ [r]) rs

/-- Translation of `extractAmounts` (amount-extractor.ts): positive-value
filtering with the `seen` set, then sort by start index and proximity
deduplication. -/
def extractAmounts (matchList : List RawMatch) : List ExtractedAmount :=
  dedupAmounts []
    ((scanMatches [] matchList).mergeSort (fun a b => decide (a.startIndex ≤ b.startIndex)))

theorem scanMatches_pos (seen : List Nat) (ms : List RawMatch) (r : ExtractedAmount)
    (hr : r ∈ scanMatches seen ms) : 0 < r.value := by
  induction ms generalizing seen with
  | nil => simp [scanMatches] at hr
  | cons m ms ih =>
    simp only [scanMatches] at hr
    split_ifs at hr with h1 h2
    · exact ih seen hr
    · rcases List.mem_cons.mp hr with h | h
      · subst h; exact h2
      · exact ih _ h
    · exact ih _ hr

theorem dedupAmounts_subset (l : List ExtractedAmount) (acc : List ExtractedAmount)
    (r : ExtractedAmount) (hr : r ∈ dedupAmounts acc l) : r ∈ acc ∨ r ∈ l := by
  induction l generalizing acc with
  | nil => simp only [dedupAmounts] at hr; exact Or.inl hr
  | cons x xs ih =>
    simp only [dedupAmounts] at hr
    split_ifs at hr with h1
    · rcases ih acc hr with h | h
      · exact Or.inl h
      · exact Or.inr (List.mem_cons_of_mem _ h)
    · rcases ih (acc ++ [x]) hr with h | h
      · rcases List.mem_append.mp h with h | h
        · exact Or.inl h
        · exact Or.inr (List.mem_cons.mpr (Or.inl (List.mem_singleton.mp h)))
      · exact Or.inr (List.mem_cons_of_mem _ h)

/-- C9: every `ExtractedAmount` produced by `extractAmounts` has a
strictly positive value — `normalizeAmount` is a total function that
returns 0 (never `NaN`) on an unparseable string, and matches whose
normalized value is not strictly positive are filtered out before
deduplication. -/
theorem extractAmounts_positive :
    (∀ (matchList : List RawMatch) (r : ExtractedAmount),
        r ∈ extractAmounts matchList → 0 < r.value)
    ∧ (∀ raw : String, parseFloatQ (String.mk (normalizeCleaned raw)) = none →
        normalizeAmount raw = 0) := by
  constructor
  · intro matchList r hr
    rcases dedupAmounts_subset _ _ _ hr with h | h
    · simp at h
    · have hmem : r ∈ scanMatches [] matchList :=
        ((scanMatches [] matchList).mergeSort_perm _).mem_iff.mp h
      exact scanMatches_pos _ _ _ hmem
  · intro raw h
    simp [normalizeAmount, h]

/-- Witness for C9: a concrete match list yields a concrete positive
amount, and a concrete unparseable string normalizes to 0. -/
theorem extractAmounts_positive_witness :
    (0 : ℚ) < (⟨"€ 100", (100 : ℚ), 0⟩ : ExtractedAmount).value
    ∧ normalizeAmount "abc" = 0 := by
  constructor
  · refine extractAmounts_positive.1 [⟨"€ 100", "100", 0⟩] ⟨"€ 100", (100 : ℚ), 0⟩ ?_
    have hdig : digitsToNat ['1','0','0'] = 100 := by decide
    have h100 : normalizeAmount "100" = 100 := by
      have key : normalizeAmount "100" =
          (1 : ℚ) * ((digitsToNat ['1','0','0'] : ℚ) + (digitsToNat [] : ℚ) / 10 ^ 0) := rfl
      have d0 : digitsToNat ([] : List Char) = 0 := rfl
      rw [key, d0, hdig]
      norm_num
    have hpos : (0 : ℚ) < normalizeAmount "100" := by rw [h100]; norm_num
    simp only [extractAmounts, scanMatches]
    rw [if_neg (by simp), if_pos hpos]
    simp only [List.mergeSort, dedupAmounts, List.any_nil, Bool.false_eq_true,
      if_false, List.nil_append]
    simp [h100, hdig, strTrim]
  · exact extractAmounts_positive.2 "abc" (by decide)

/-! ## Date extraction (`src/lib/extraction/date-extractor.ts`) -/

/-- `ExtractedDate` of date-extractor.ts. -/
structure ExtractedDate where
  raw : String
  normalized : String
  startIndex : Nat
deriving DecidableEq

/-- The Italian month-name table `MONTHS_IT`. -/
def MONTHS_IT : List (String × String) :=
  [("gennaio", "01"), ("febbraio", "02"), ("marzo", "03"), ("aprile", "04"),
   ("maggio", "05"), ("giugno", "06"), ("luglio", "07"), ("agosto", "08"),
   ("settembre", "09"), ("ottobre", "10"), ("novembre", "11"), ("dicembre", "12")]

/-- The separator class `[\/\-\.]` of `DATE_NUMERIC`. -/
def isDateSep (c : Char) : Bool := c == '/' || c == '-' || c == '.'

/-- Match `(\d{1,2})[\/\-\.](\d{1,2})[\/\-\.](\d{4})` at the head of `cs`.
The separator class contains no digits, so the regex's backtracking over
`\d{1,2}` reduces to: a run of one or two digits followed by a separator
(three or more digits cannot match).  Returns the match length and the
three captured digit groups. -/
def matchNumericDateAt (cs : List Char) :
    Option (Nat × List Char × List Char × List Char) :=
  let ds := cs.takeWhile (fun c => c.isDigit)
  if ds.length = 0 ∨ 3 ≤ ds.length then none else
  match cs.drop ds.length with
  | s1 :: rest1 =>
    if !isDateSep s1 then none else
    let ms := rest1.takeWhile (fun c => c.isDigit)
    if ms.length = 0 ∨ 3 ≤ ms.length then none else
    (match rest1.drop ms.length with
     | s2 :: rest2 =>
       if !isDateSep s2 then none else
       let ys := rest2.take 4
       if ys.length = 4 ∧ ys.all (fun c => c.isDigit) then
         some (ds.length + 1 + ms.length + 1 + 4, ds, ms, ys)
       else none
     | [] => none)
  | [] => none

/-- Match `(\d{1,2})\s+(gennaio|…|dicembre)\s+(\d{4})` (case-insensitive)
at the head of `cs`; the whitespace class contains no digits or letters,
so greedy `takeWhile` is faithful.  Returns the match length, the day
digits and the month's two-digit number from `MONTHS_IT`. -/
def matchTextualDateAt (cs : List Char) :
    Option (Nat × List Char × String × List Char) :=
  let ds := cs.takeWhile (fun c => c.isDigit)
  if ds.length = 0 ∨ 3 ≤ ds.length then none else
  let rest1 := cs.drop ds.length
  let ws1 := rest1.takeWhile (fun c => c.isWhitespace)
  if ws1.length = 0 then none else
  let rest2 := rest1.drop ws1.length
  match MONTHS_IT.find? (fun nm => nm.1.data.isPrefixOf (rest2.map Char.toLower)) with
  | none => none
  | some nm =>
    let rest3 := rest2.drop nm.1.length
    let ws2 := rest3.takeWhile (fun c => c.isWhitespace)
    if ws2.length = 0 then none else
    let rest4 := rest3.drop ws2.length
    let ys := rest4.take 4
    if ys.length = 4 ∧ ys.all (fun c => c.isDigit) then
      some (ds.length + ws1.length + nm.1.length + ws2.length + 4, ds, nm.2, ys)
    else none

/-- One left-to-right scan of the text with a matcher, like the JS
`g`-flag `exec` loop: on a match continue right after it, otherwise
advance one character.  The fuel (initialized to the text length) bounds
the number of steps; every step consumes at least one character, so no
match is ever cut off. -/
def scanWith {α : Type} (matchAt : List Char → Option (Nat × α)) :
    Nat → List Char → Nat → List (Nat × Nat × α)
  | 0, _, _ => []
  | _ + 1, [], _ => []
  | fuel + 1, c :: cs, i =>
    match matchAt (c :: cs) with
    | some (len, a) => (i, len, a) :: scanWith matchAt fuel ((c :: cs).drop len) (i + len)
    | none => scanWith matchAt fuel cs (i + 1)

/-- JS `padStart(2, '0')` on a digit group. -/
def padStart2 (ds : List Char) : List Char := if ds.length = 1 then '0' :: ds else ds

/-- The numeric branch of `extractDates`: each match is kept iff its
month, parsed as a number, is between 1 and 12; the day and year are not
validated. -/
def extractDatesNumeric (text : String) : List ExtractedDate :=
  (scanWith matchNumericDateAt text.data.length text.data 0).filterMap
    (fun m =>
      match m with
      | (i, len, (ds, ms, ys)) =>
        let day := padStart2 ds
        let month := padStart2 ms
        let monthNum := digitsToNat month
        if 1 ≤ monthNum ∧ monthNum ≤ 12 then
          some ⟨String.mk ((text.data.drop i).take len),
                String.mk (ys ++ '-' :: (month ++ '-' :: day)), i⟩
        else none)

/-- The textual branch of `extractDates`: the month-name lookup already
succeeded during matching, so every match is kept. -/
def extractDatesTextual (text : String) : List ExtractedDate :=
  (scanWith matchTextualDateAt text.data.length text.data 0).map
    (fun m =>
      match m with
      | (i, len, (ds, month, ys)) =>
        let day := padStart2 ds
        ⟨String.mk ((text.data.drop i).take len),
         String.mk (ys ++ '-' :: (month.data ++ '-' :: day)), i⟩)

/-- Translation of `extractDates` (date-extractor.ts): numeric matches,
then textual matches, merged and sorted by position. -/
def extractDates (text : String) : List ExtractedDate :=
  (extractDatesNumeric text ++ extractDatesTextual text).mergeSort
    (fun a b => decide (a.startIndex ≤ b.startIndex))

/-- C10: the date extractor range-checks only the month — every numeric
match `dd[-./]mm[-./]yyyy` whose month lies between 1 and 12 is emitted,
with no validation of the day or year, normalized to the ISO-shaped string
`yyyy-mm-dd`; in particular `extractDates "99/12/2024"` yields exactly the
entry normalized to `"2024-12-99"`, which is not a valid calendar date. -/
theorem extractDates_month_only_validation :
    (∀ (text : String) (i len : Nat) (ds ms ys : List Char),
        (i, len, (ds, ms, ys)) ∈ scanWith matchNumericDateAt text.data.length text.data 0 →
        1 ≤ digitsToNat (padStart2 ms) → digitsToNat (padStart2 ms) ≤ 12 →
        (⟨String.mk ((text.data.drop i).take len),
          String.mk (ys ++ '-' :: (padStart2 ms ++ '-' :: padStart2 ds)), i⟩ : ExtractedDate)
          ∈ extractDates text)
    ∧ extractDates "99/12/2024" = [⟨"99/12/2024", "2024-12-99", 0⟩] := by
  constructor
  · intro text i len ds ms ys hscan h1 h2
    have hmemN : (⟨String.mk ((text.data.drop i).take len),
        String.mk (ys ++ '-' :: (padStart2 ms ++ '-' :: padStart2 ds)), i⟩ : ExtractedDate)
        ∈ extractDatesNumeric text := by
      apply List.mem_filterMap.mpr
      refine ⟨(i, len, (ds, ms, ys)), hscan, ?_⟩
      simp only [if_pos (And.intro h1 h2)]
    have hmemA : (⟨String.mk ((text.data.drop i).take len),
        String.mk (ys ++ '-' :: (padStart2 ms ++ '-' :: padStart2 ds)), i⟩ : ExtractedDate)
        ∈ extractDatesNumeric text ++ extractDatesTextual text :=
      List.mem_append.mpr (Or.inl hmemN)
    exact (List.mergeSort_perm _ _).mem_iff.mpr hmemA
  · have hnum : extractDatesNumeric "99/12/2024" = [⟨"99/12/2024", "2024-12-99", 0⟩] := by
      decide
    have htex : extractDatesTextual "99/12/2024" = [] := by decide
    rw [extractDates, hnum, htex]
    exact List.mergeSort_singleton _

/-- Witness for C10: the scan of `"99/12/2024"` matches at index 0 with
month 12, and the theorem places the corresponding (invalid) date in the
output. -/
theorem extractDates_month_only_validation_witness :
    (⟨String.mk (("99/12/2024".data.drop 0).take 10),
      String.mk (['2','0','2','4'] ++ '-' :: (padStart2 ['1','2'] ++ '-' :: padStart2 ['9','9'])),
      0⟩ : ExtractedDate) ∈ extractDates "99/12/2024" :=
  extractDates_month_only_validation.1 "99/12/2024" 0 10 ['9','9'] ['1','2'] ['2','0','2','4']
    (by decide) (by decide) (by decide)

/-! ## Multi-engine PDF text extraction (`src/lib/extract-pdf-text.ts`) -/

/-- The engine tags of `PdfExtractionResult`. -/
inductive ExtractionEngine
  | pdfParseCustom | pdfParseDefault | pdfjsDirect | failed
deriving DecidableEq

/-- `PdfExtractionResult` of extract-pdf-text.ts. -/
structure PdfExtractionResult where
  text : String
  pages : Nat
  engine : ExtractionEngine
  error : Option String
deriving DecidableEq

/-- `tryPdfParseDefault` (extract-pdf-text.ts) over the engine-2 outcome:
pdf-parse's default renderer either resolves (`.ok` with text and page
count — the text may be empty) and yields a result, or fails (`.error`
covers both a missing pdf-parse module and a thrown parse error) and
appends its message to the error trail. -/
def tryPdfParseDefault (e2 : Except String (String × Nat)) (errors : List String) :
    Option PdfExtractionResult × List String :=
  match e2 with
  | .ok (t, p) => (some ⟨t, p, .pdfParseDefault, none⟩, errors)
  | .error m => (none, errors ++ [m])

/-- `tryPdfjsDirect` (extract-pdf-text.ts) over the engine-3 outcome:
pdfjs-dist either produces a result — including the genuine-scan case of
zero extracted text, still returned under engine `pdfjs-direct` — or
fails and appends its message. -/
def tryPdfjsDirect (e3 : Except String (String × Nat)) (errors : List String) :
    Option PdfExtractionResult × List String :=
  match e3 with
  | .ok (t, p) => (some ⟨t, p, .pdfjsDirect, none⟩, errors)
  | .error m => (none, errors ++ [m])

/-- The engine-2 / engine-3 fallback tail of `extractPdfText`; when both
fail, the joined error trail is reported under engine `failed`. -/
def enginesTwoThree (errors : List String) (e2 e3 : Except String (String × Nat)) :
    PdfExtractionResult :=
  match tryPdfParseDefault e2 errors with
  | (some r, _) => r
  | (none, errors2) =>
    match tryPdfjsDirect e3 errors2 with
    | (some r, _) => r
    | (none, errors3) => ⟨"", 0, .failed, some (String.intercalate " | " errors3)⟩

/-- The "testo troppo corto" note that engine 1 pushes when its text is
shorter than `MIN_CHARS`. -/
def shortNoteMsg (trimLen pages : Nat) : String :=
  "pdf-parse-custom: testo troppo corto (" ++ toString trimLen ++ " char, "
    ++ toString pages ++ " pag)"

/-- Translation of `extractPdfText` (extract-pdf-text.ts) over the engine
outcomes: `magicOk` is the `%PDF-` header check, `e1` the outcome of
engine 1 (`parsePdf`, page texts joined; `.error` covers a missing
pdf-parse module and thrown errors), `e2` / `e3` the outcomes of the two
fallback engines (deterministic in the buffer, so the second
`tryPdfParseDefault` call sees the same outcome as the first). -/
def extractPdfText (magicOk : Bool) (e1 e2 e3 : Except String (String × Nat)) :
    PdfExtractionResult :=
  match magicOk with
  | false => ⟨"", 0, .failed, some "Il file non è un PDF valido"⟩
  | true =>
    match e1 with
    | .error m1 => enginesTwoThree ["pdf-parse-custom failed: " ++ m1] e2 e3
    | .ok (text, pages) =>
      if 200 ≤ (strTrim text).length then ⟨text, pages, .pdfParseCustom, none⟩
      else
        match tryPdfParseDefault e2 [shortNoteMsg (strTrim text).length pages] with
        | (some r, errors2) =>
          if (strTrim text).length ≤ (strTrim r.text).length then r
          else if 0 < (strTrim text).length then ⟨text, pages, .pdfParseCustom, none⟩
          else enginesTwoThree errors2 e2 e3
        | (none, errors2) =>
          if 0 < (strTrim text).length then ⟨text, pages, .pdfParseCustom, none⟩
          else enginesTwoThree errors2 e2 e3

/-- C4 counterexample: engine 1 throws and engine 2 resolves with empty
text — every strategy yields no text, yet the result is reported under
engine `pdf-parse-default` with empty text, not under `failed` with the
error trail, so "engine `failed` exactly when every strategy yields no
text" is false. -/
theorem extractPdfText_empty_fallback_counterexample :
    (extractPdfText true (.error "boom") (.ok ("", 0)) (.error "e3")).engine
        = ExtractionEngine.pdfParseDefault
    ∧ (extractPdfText true (.error "boom") (.ok ("", 0)) (.error "e3")).engine
        ≠ ExtractionEngine.failed
    ∧ (extractPdfText true (.error "boom") (.ok ("", 0)) (.error "e3")).text = "" := by
  refine ⟨rfl, ?_, rfl⟩
  intro h
  exact absurd h (by decide)

/-- C4 (amended): for a buffer passing the magic-header check, the chain
never returns an empty later strategy's result in place of an earlier
non-empty partial text — the trimmed result is never shorter than engine
1's trimmed text; and it reports engine `failed` exactly when engine 1
yields no text (it throws or its text trims to empty) AND both fallback
engines throw — a fallback that completes with empty text is reported
under its own engine name.  In the `failed` case the error is the
" | "-joined trail of every accumulated message (engine 2's message twice
when engine 1 returned short text, since the fallback is attempted
twice). -/
theorem extractPdfText_fallback_policy :
    (∀ (text : String) (pages : Nat) (e2 e3 : Except String (String × Nat)),
        (strTrim text).length ≤
          (strTrim (extractPdfText true (.ok (text, pages)) e2 e3).text).length)
    ∧ (∀ (e1 e2 e3 : Except String (String × Nat)),
        (extractPdfText true e1 e2 e3).engine = ExtractionEngine.failed ↔
          ((∀ t p, e1 = .ok (t, p) → (strTrim t).length = 0)
            ∧ (∃ m2, e2 = .error m2) ∧ (∃ m3, e3 = .error m3)))
    ∧ (∀ (m1 m2 m3 : String),
        extractPdfText true (.error m1) (.error m2) (.error m3)
          = ⟨"", 0, ExtractionEngine.failed,
              some (String.intercalate " | "
                ["pdf-parse-custom failed: " ++ m1, m2, m3])⟩)
    ∧ (∀ (t : String) (p : Nat) (m2 m3 : String), (strTrim t).length = 0 →
        extractPdfText true (.ok (t, p)) (.error m2) (.error m3)
          = ⟨"", 0, ExtractionEngine.failed,
              some (String.intercalate " | "
                [shortNoteMsg (strTrim t).length p, m2, m2, m3])⟩) := by
  refine ⟨?_, ?_, ?_, ?_⟩
  · intro text pages e2 e3
    simp only [extractPdfText]
    by_cases h200 : 200 ≤ (strTrim text).length
    · rw [if_pos h200]
    · rw [if_neg h200]
      rcases e2 with m2 | ⟨t2, p2⟩
      · simp only [tryPdfParseDefault]
        by_cases hpos : 0 < (strTrim text).length
        · rw [if_pos hpos]
        · rw [if_neg hpos]
          rcases e3 with m3 | ⟨t3, p3⟩ <;>
            simp only [enginesTwoThree, tryPdfParseDefault, tryPdfjsDirect] <;> omega
      · simp only [tryPdfParseDefault]
        by_cases hle : (strTrim text).length ≤ (strTrim t2).length
        · rw [if_pos hle]; exact hle
        · rw [if_neg hle, if_pos (by omega)]
  · intro e1 e2 e3
    rcases e1 with m1 | ⟨t1, p1⟩
    · simp only [extractPdfText, enginesTwoThree]
      rcases e2 with m2 | ⟨t2, p2⟩ <;> rcases e3 with m3 | ⟨t3, p3⟩ <;>
        simp [tryPdfParseDefault, tryPdfjsDirect]
    · simp only [extractPdfText]
      by_cases h200 : 200 ≤ (strTrim t1).length
      · rw [if_pos h200]
        constructor
        · intro h; exact nomatch h
        · rintro ⟨hall, -, -⟩
          have := hall t1 p1 rfl
          omega
      · rw [if_neg h200]
        rcases e2 with m2 | ⟨t2, p2⟩
        · simp only [tryPdfParseDefault]
          by_cases hpos : 0 < (strTrim t1).length
          · rw [if_pos hpos]
            constructor
            · intro h; exact nomatch h
            · rintro ⟨hall, -, -⟩
              have := hall t1 p1 rfl
              omega
          · rw [if_neg hpos]
            rcases e3 with m3 | ⟨t3, p3⟩ <;>
              simp only [enginesTwoThree, tryPdfParseDefault, tryPdfjsDirect]
            · constructor
              · intro _
                refine ⟨?_, ⟨m2, rfl⟩, ⟨m3, rfl⟩⟩
                intro t p hh
                obtain ⟨ht, hp⟩ := Prod.mk.inj (Except.ok.inj hh)
                subst ht
                omega
              · intro _
                trivial
            · constructor
              · intro h; exact nomatch h
              · rintro ⟨-, -, ⟨m3x, hm3⟩⟩
                cases hm3
        · simp only [tryPdfParseDefault]
          by_cases hle : (strTrim t1).length ≤ (strTrim t2).length
          · rw [if_pos hle]
            constructor
            · intro h; exact nomatch h
            · rintro ⟨-, ⟨m2x, hm2⟩, -⟩
              cases hm2
          · rw [if_neg hle, if_pos (by omega)]
            constructor
            · intro h; exact nomatch h
            · rintro ⟨-, ⟨m2x, hm2⟩, -⟩
              cases hm2
  · intro m1 m2 m3
    rfl
  · intro t p m2 m3 h0
    simp only [extractPdfText, tryPdfParseDefault, enginesTwoThree, tryPdfjsDirect]
    rw [if_neg (by omega), if_neg (by omega)]
    rfl

/-- Witness for C4: at concrete engine outcomes — engine 1 resolving to
empty text, both fallbacks throwing — the amended equations hold. -/
theorem extractPdfText_fallback_policy_witness :
    (strTrim "").length ≤
      (strTrim (extractPdfText true (.ok ("", 3)) (.error "a") (.error "b")).text).length
    ∧ ((extractPdfText true (.error "x") (.error "a") (.error "b")).engine
        = ExtractionEngine.failed ↔ True)
    ∧ extractPdfText true (.ok ("", 3)) (.error "a") (.error "b")
        = ⟨"", 0, ExtractionEngine.failed,
            some (String.intercalate " | " [shortNoteMsg (strTrim "").length 3, "a", "a", "b"])⟩ := by
  refine ⟨extractPdfText_fallback_policy.1 "" 3 (.error "a") (.error "b"), ?_, ?_⟩
  · rw [iff_true]
    refine (extractPdfText_fallback_policy.2.1 (.error "x") (.error "a") (.error "b")).mpr ?_
    exact ⟨fun t p h => (nomatch h), ⟨"a", rfl⟩, ⟨"b", rfl⟩⟩
  · exact extractPdfText_fallback_policy.2.2.2 "" 3 "a" "b" (by decide)

/-! ## Vision-OCR orchestrator (`src/lib/ocrVision.ts`) -/

/-- `OcrPage.status` values. -/
inductive OcrStatus
  | ok | empty | skipped_blank | failed | rate_limited
deriving DecidableEq

/-- `PageRenderResult` as consumed by `visionOcrPages`. -/
structure PageRenderResult where
  pageNumber : Nat
  base64 : String
  bytes : Nat
  whiteness : ℚ
  isBlank : Bool
deriving DecidableEq

/-- `OcrPage` of ocrVision.ts (`rawModelOutput`, a free-form diagnostic
string, is not modelled). -/
structure OcrPage where
  page : Nat
  text : String
  chars : Nat
  status : OcrStatus
  preview : String
deriving DecidableEq

/-- The `skipped_blank` entry pushed for a page already marked blank. -/
def skippedBlankEntry (p : PageRenderResult) : OcrPage :=
  ⟨p.pageNumber, "", 0, OcrStatus.skipped_blank, ""⟩

/-- The `failed` entry pushed for a page whose render produced no
base64 payload. -/
def renderFailedEntry (p : PageRenderResult) : OcrPage :=
  ⟨p.pageNumber, "", 0, OcrStatus.failed, ""⟩

/-- The blank / payload-less results produced by the partitioning loop of
`visionOcrPages`, in input order. -/
def preResults (pages : List PageRenderResult) : List OcrPage :=
  pages.filterMap (fun p =>
    if p.isBlank then some (skippedBlankEntry p)
    else if p.base64 = "" then some (renderFailedEntry p)
    else none)

/-- `toProcess`: the pages handed to the external completion calls. -/
def toProcess (pages : List PageRenderResult) : List PageRenderResult :=
  pages.filter (fun p => !p.isBlank && !(p.base64 == ""))

/-- The batching loop of `visionOcrPages`: pairs go to `ocrTwoPages`, a
trailing single page to `ocrOnePage`.  The two external calls are
abstracted as function parameters; the source guarantees that each
returned `OcrPage` carries its input page's number. -/
def processBatches (ocrTwo : PageRenderResult → PageRenderResult → OcrPage × OcrPage)
    (ocrOne : PageRenderResult → OcrPage) : List PageRenderResult → List OcrPage
  | [] => []
  | [a] => [ocrOne a]
  | a :: b :: rest => (ocrTwo a b).1 :: (ocrTwo a b).2 :: processBatches ocrTwo ocrOne rest

/-- Translation of `visionOcrPages` (ocrVision.ts): partition off blank
and payload-less pages, batch the rest through the external calls, and
sort all results by page number. -/
def visionOcrPages (ocrTwo : PageRenderResult → PageRenderResult → OcrPage × OcrPage)
    (ocrOne : PageRenderResult → OcrPage) (pages : List PageRenderResult) : List OcrPage :=
  (preResults pages ++ processBatches ocrTwo ocrOne (toProcess pages)).mergeSort
    (fun a b => decide (a.page ≤ b.page))

theorem processBatches_map_page
    (ocrTwo : PageRenderResult → PageRenderResult → OcrPage × OcrPage)
    (ocrOne : PageRenderResult → OcrPage)
    (hTwo : ∀ a b, (ocrTwo a b).1.page = a.pageNumber ∧ (ocrTwo a b).2.page = b.pageNumber)
    (hOne : ∀ a, (ocrOne a).page = a.pageNumber) :
    ∀ l : List PageRenderResult,
      (processBatches ocrTwo ocrOne l).map (fun r => r.page) = l.map (fun p => p.pageNumber)
  | [] => by simp [processBatches]
  | [a] => by simp [processBatches, hOne a]
  | a :: b :: rest => by
    simp [processBatches, (hTwo a b).1, (hTwo a b).2,
      processBatches_map_page ocrTwo ocrOne hTwo hOne rest]

theorem preResults_toProcess_perm :
    ∀ pages : List PageRenderResult,
      ((preResults pages).map (fun r => r.page)
        ++ (toProcess pages).map (fun p => p.pageNumber)).Perm
        (pages.map (fun p => p.pageNumber))
  | [] => by simp [preResults, toProcess]
  | p :: ps => by
    by_cases hb : p.isBlank
    · simp only [preResults, toProcess, List.filterMap_cons, List.filter_cons, hb,
        Bool.not_true, Bool.false_and, if_pos]
      simpa [preResults, toProcess, skippedBlankEntry] using
        (preResults_toProcess_perm ps).cons p.pageNumber
    · by_cases h64 : p.base64 = ""
      · simp only [preResults, toProcess, List.filterMap_cons, List.filter_cons, hb, h64,
          Bool.not_false, Bool.true_and, if_neg, if_pos]
        simpa [preResults, toProcess, renderFailedEntry, hb, h64] using
          (preResults_toProcess_perm ps).cons p.pageNumber
      · have hcons : toProcess (p :: ps) = p :: toProcess ps := by
          simp [toProcess, List.filter_cons, hb, h64]
        have hpre : preResults (p :: ps) = preResults ps := by
          simp [preResults, List.filterMap_cons, hb, h64]
        rw [hpre, hcons]
        simp only [List.map_cons]
        exact List.perm_middle.trans ((preResults_toProcess_perm ps).cons p.pageNumber)

/-- C7: for every page list and any external OCR calls that tag each
result with its input page's number (as `ocrTwoPages` / `ocrOnePage` do on
every path), the orchestrator returns one result per input page — the
multiset of output page numbers equals the multiset of input page numbers
— sorted ascending by page number regardless of processing order; and
every input page flagged blank yields its `skipped_blank` entry and is not
among the pages sent to the external calls. -/
theorem visionOcr_sorted_and_blank_skipped
    (ocrTwo : PageRenderResult → PageRenderResult → OcrPage × OcrPage)
    (ocrOne : PageRenderResult → OcrPage)
    (hTwo : ∀ a b, (ocrTwo a b).1.page = a.pageNumber ∧ (ocrTwo a b).2.page = b.pageNumber)
    (hOne : ∀ a, (ocrOne a).page = a.pageNumber)
    (pages : List PageRenderResult) :
    ((visionOcrPages ocrTwo ocrOne pages).map (fun r => r.page)).Perm
        (pages.map (fun p => p.pageNumber))
    ∧ List.Pairwise (fun a b : OcrPage => a.page ≤ b.page) (visionOcrPages ocrTwo ocrOne pages)
    ∧ ∀ p ∈ pages, p.isBlank = true →
        skippedBlankEntry p ∈ visionOcrPages ocrTwo ocrOne pages ∧ p ∉ toProcess pages := by
  refine ⟨?_, ?_, ?_⟩
  · have h1 : ((preResults pages ++ processBatches ocrTwo ocrOne (toProcess pages)).map
        (fun r => r.page)).Perm (pages.map (fun p => p.pageNumber)) := by
      rw [List.map_append, processBatches_map_page ocrTwo ocrOne hTwo hOne]
      exact preResults_toProcess_perm pages
    exact ((List.mergeSort_perm _ _).map _).trans h1
  · have hs := @List.sorted_mergeSort OcrPage (fun a b => decide (a.page ≤ b.page))
      (fun a b c h1 h2 => by
        simp only [decide_eq_true_eq] at *
        omega)
      (fun a b => by
        simp only [Bool.or_eq_true, decide_eq_true_eq]
        omega)
      (preResults pages ++ processBatches ocrTwo ocrOne (toProcess pages))
    exact hs.imp (fun h => by simpa using h)
  · intro p hp hb
    constructor
    · have hpre : skippedBlankEntry p ∈ preResults pages :=
        List.mem_filterMap.mpr ⟨p, hp, by simp [hb]⟩
      exact (List.mergeSort_perm _ _).mem_iff.mpr (List.mem_append.mpr (Or.inl hpre))
    · intro hmem
      have hincl := List.of_mem_filter hmem
      simp [hb] at hincl

/-- A sample external two-page call that tags results with the input page
numbers. -/
def ocrTwoSample : PageRenderResult → PageRenderResult → OcrPage × OcrPage :=
  fun a b => (⟨a.pageNumber, "testo", 5, OcrStatus.ok, "testo"⟩,
              ⟨b.pageNumber, "testo", 5, OcrStatus.ok, "testo"⟩)

/-- A sample external one-page call that tags its result with the input
page number. -/
def ocrOneSample : PageRenderResult → OcrPage :=
  fun a => ⟨a.pageNumber, "testo", 5, OcrStatus.ok, "testo"⟩

/-- Three sample rendered pages arriving out of order, the second one
blank. -/
def samplePages : List PageRenderResult :=
  [⟨3, "x", 10000, 1/2, false⟩, ⟨1, "", 0, -1, true⟩, ⟨2, "y", 9000, 1/2, false⟩]

/-- Witness for C7: the orchestrator contract instantiated at the sample
pages and sample external calls. -/
theorem visionOcr_sorted_and_blank_skipped_witness :
    ((visionOcrPages ocrTwoSample ocrOneSample samplePages).map (fun r => r.page)).Perm
        (samplePages.map (fun p => p.pageNumber))
    ∧ List.Pairwise (fun a b : OcrPage => a.page ≤ b.page)
        (visionOcrPages ocrTwoSample ocrOneSample samplePages)
    ∧ ∀ p ∈ samplePages, p.isBlank = true →
        skippedBlankEntry p ∈ visionOcrPages ocrTwoSample ocrOneSample samplePages
        ∧ p ∉ toProcess samplePages :=
  visionOcr_sorted_and_blank_skipped ocrTwoSample ocrOneSample
    (fun _ _ => ⟨rfl, rfl⟩) (fun _ => rfl) samplePages

/-! ## Keyword section finder (`section-finder.ts`) -/

/-- `WINDOW_SIZE`: characters around a keyword match. -/
def WINDOW_SIZE : Nat := 1500

/-- `HALF_WINDOW = WINDOW_SIZE / 2`. -/
def HALF_WINDOW : Nat := WINDOW_SIZE / 2

/-- `PageText` of `src/types`. -/
structure PageText where
  page : Nat
  text : String
deriving DecidableEq

/-- The numbering test `/^\d+[\.\)]\s*\d*\.?\s*/`: everything after
`[.)]` is optional, so the test is: a leading digit run followed by `.`
or `)`. -/
def numberingTest (cs : List Char) : Bool :=
  let ds := cs.takeWhile (fun c => c.isDigit)
  !ds.isEmpty && (match cs.drop ds.length with
    | c :: _ => c == '.' || c == ')'
    | [] => false)

/-- The prefix test `/^(capitolo|sezione|art\.?\s|paragrafo|punto)/i` on
the lower-cased line. -/
def titlePrefixTest (lower : List Char) : Bool :=
  "capitolo".data.isPrefixOf lower || "sezione".data.isPrefixOf lower
    || (match lower with
        | 'a' :: 'r' :: 't' :: '.' :: c :: _ => c.isWhitespace
        | 'a' :: 'r' :: 't' :: c :: _ => c.isWhitespace
        | _ => false)
    || "paragrafo".data.isPrefixOf lower || "punto".data.isPrefixOf lower

/-- `[*_]` marker class of the bold pattern. -/
def boldMarker (c : Char) : Bool := c == '*' || c == '_'

/-- The bold test `/^[*_]{2}.+[*_]{2}$/`: two markers, at least one inner
character (modelled as any character), two closing markers. -/
def boldTest (cs : List Char) : Bool :=
  decide (5 ≤ cs.length)
    && (match cs with | c1 :: c2 :: _ => boldMarker c1 && boldMarker c2 | _ => false)
    && (match cs.reverse with | d1 :: d2 :: _ => boldMarker d1 && boldMarker d2 | _ => false)

/-- Translation of `isTitleLike` (section-finder.ts).  JS `toUpperCase` is
modelled by Lean's ASCII case mapping. -/
def isTitleLike (line : String) : Bool :=
  let trimmed := strTrim line
  if 120 < trimmed.length || trimmed.length < 3 then false
  else if trimmed == strToUpper trimmed && 3 < trimmed.length then true
  else if numberingTest trimmed.data then true
  else if titlePrefixTest (strToLower trimmed).data then true
  else boldTest trimmed.data

/-- All match positions of a keyword in a text, as the
`indexOf` / `searchFrom = idx + 1` loop produces them (one past each hit,
so overlapping occurrences are all found, in ascending order). -/
def occurrences (kw text : List Char) : List Nat :=
  (List.range (text.length + 1)).filter (fun i => kw.isPrefixOf (text.drop i))

/-- JS `s.slice(a, b)` on a char list. -/
def listSlice (cs : List Char) (a b : Nat) : List Char := (cs.drop a).take (b - a)

/-- JS `text.lastIndexOf(c, upTo)`: the largest position `≤ upTo` holding
`c`, `-1` if none. -/
def lastIndexOfUpTo (c : Char) (cs : List Char) (upTo : Nat) : Int :=
  match ((List.range (min (upTo + 1) cs.length)).filter (fun j => cs[j]? == some c)).getLast? with
  | some j => (j : Int)
  | none => -1

/-- JS `text.indexOf(c, start)`: the first position `≥ start` holding `c`,
`-1` if none. -/
def indexOfFrom (c : Char) (cs : List Char) (start : Nat) : Int :=
  match (List.range cs.length).find? (fun j => decide (start ≤ j) && (cs[j]? == some c)) with
  | some j => (j : Int)
  | none => -1

/-- Construction of one `SectionCandidate` for a keyword hit at `idx` in a
page (`findSectionCandidates` loop body): clamped window slice, title
detection on the line containing the hit, matched-keyword filter and
score. -/
def buildCandidate (keywords : List String) (page : PageText) (kw : String) (idx : Nat) :
    SectionCandidate :=
  let text := page.text.data
  let start := idx - HALF_WINDOW
  let endPos := min text.length (idx + kw.length + HALF_WINDOW)
  let windowText := listSlice text start endPos
  let lineStart := (max 0 (lastIndexOfUpTo '\n' text idx)).toNat
  let lineEnd := indexOfFrom '\n' text (idx + kw.length)
  let surroundingLine := listSlice text lineStart
    (if lineEnd = -1 then min text.length (idx + kw.length + 80) else lineEnd.toNat)
  let isTitle := isTitleLike (String.mk surroundingLine)
  let windowLower := strToLower (String.mk windowText)
  let matched := keywords.filter (fun k => containsStr windowLower (strToLower k))
  let score := matched.length + (if isTitle then 3 else 0)
    + (if 3 ≤ matched.length then 2 else 0)
  ⟨String.mk windowText, page.page, start, endPos, matched, isTitle, score⟩

/-- The candidate windows of one page in generation order: keywords in
list order, occurrences (computed on the lower-cased text with the
lower-cased keyword) left to right. -/
def pageCandidates (keywords : List String) (page : PageText) : List SectionCandidate :=
  keywords.flatMap (fun kw =>
    (occurrences (strToLower kw).data (strToLower page.text).data).map
      (fun idx => buildCandidate keywords page kw idx))

/-- The dedup-guarded accumulation loop of `findSectionCandidates`: a
candidate is appended only when no already-kept candidate on the same page
starts within `HALF_WINDOW` of it, so the first window encountered in an
overlapping cluster is the one kept. -/
def insertCandidates (acc : List SectionCandidate) : List SectionCandidate → List SectionCandidate
  | [] => acc
  | c :: cs =>
    if acc.any (fun d => d.page == c.page && natDist d.startOffset c.startOffset < HALF_WINDOW) then
      insertCandidates acc cs
    else insertCandidates (acc ++ [c]) cs

/-- Translation of `findSectionCandidates` (section-finder.ts): generate
candidate windows over all pages, keywords and occurrences with overlap
deduplication, sort by score descending, and take the top
`maxCandidates`. -/
def findSectionCandidates (keywords : List String) (pages : List PageText)
    (maxCandidates : Nat := 5) : List SectionCandidate :=
  ((insertCandidates [] (pages.flatMap (fun page => pageCandidates keywords page))).mergeSort
    (fun a b => decide (b.score ≤ a.score))).take maxCandidates

theorem natDist_comm (a b : Nat) : natDist a b = natDist b a := by
  unfold natDist
  rw [Nat.max_comm, Nat.min_comm]

/-- The deduplication relation: on a common page, start offsets are at
least `HALF_WINDOW` apart. -/
def DedupApart (a b : SectionCandidate) : Prop :=
  a.page = b.page → HALF_WINDOW ≤ natDist a.startOffset b.startOffset

theorem dedupApart_symm {a b : SectionCandidate} (h : DedupApart a b) : DedupApart b a := by
  intro hpage
  rw [natDist_comm]
  exact h hpage.symm

theorem insertCandidates_pairwise (l : List SectionCandidate) :
    ∀ acc : List SectionCandidate, List.Pairwise DedupApart acc →
      List.Pairwise DedupApart (insertCandidates acc l) := by
  induction l with
  | nil => intro acc hacc; simpa [insertCandidates] using hacc
  | cons c cs ih =>
    intro acc hacc
    simp only [insertCandidates]
    split_ifs with hdup
    · exact ih acc hacc
    · refine ih (acc ++ [c]) ?_
      rw [List.pairwise_append]
      refine ⟨hacc, List.pairwise_singleton _ _, ?_⟩
      intro a ha b hb
      rw [List.mem_singleton.mp hb]
      intro hpage
      by_contra hclose
      apply hdup
      rw [List.any_eq_true]
      refine ⟨a, ha, ?_⟩
      simp only [Bool.and_eq_true, beq_iff_eq, decide_eq_true_eq]
      exact ⟨hpage, by omega⟩

theorem insertCandidates_mem (l : List SectionCandidate) :
    ∀ (acc : List SectionCandidate) (c : SectionCandidate),
      c ∈ insertCandidates acc l → c ∈ acc ∨ c ∈ l := by
  induction l with
  | nil => intro acc c h; exact Or.inl (by simpa [insertCandidates] using h)
  | cons x xs ih =>
    intro acc c h
    simp only [insertCandidates] at h
    split_ifs at h with hdup
    · rcases ih acc c h with h1 | h1
      · exact Or.inl h1
      · exact Or.inr (List.mem_cons_of_mem _ h1)
    · rcases ih (acc ++ [x]) c h with h1 | h1
      · rcases List.mem_append.mp h1 with h2 | h2
        · exact Or.inl h2
        · exact Or.inr (List.mem_cons.mpr (Or.inl (List.mem_singleton.mp h2)))
      · exact Or.inr (List.mem_cons_of_mem _ h1)

/-- C8: in the list returned by the keyword section finder — for every
keyword set, page list and cutoff — no two candidates on the same page
have start offsets within `HALF_WINDOW` (half a window) of each other;
every returned candidate is one of the generated keyword-hit windows (when
two windows on a page fall within that distance, only the first
encountered survives the accumulation loop). -/
theorem sectionFinder_dedup_invariant (keywords : List String) (pages : List PageText)
    (maxCandidates : Nat) :
    List.Pairwise DedupApart (findSectionCandidates keywords pages maxCandidates)
    ∧ ∀ c ∈ findSectionCandidates keywords pages maxCandidates,
        c ∈ pages.flatMap (fun page => pageCandidates keywords page) := by
  have hbase : List.Pairwise DedupApart
      (insertCandidates [] (pages.flatMap (fun page => pageCandidates keywords page))) :=
    insertCandidates_pairwise _ [] (List.Pairwise.nil)
  have hperm := List.mergeSort_perm
    (insertCandidates [] (pages.flatMap (fun page => pageCandidates keywords page)))
    (fun a b => decide (b.score ≤ a.score))
  constructor
  · have hsorted : List.Pairwise DedupApart
        ((insertCandidates [] (pages.flatMap (fun page => pageCandidates keywords page))).mergeSort
          (fun a b => decide (b.score ≤ a.score))) :=
      hbase.perm hperm.symm (fun h => dedupApart_symm h)
    exact List.Pairwise.sublist (List.take_sublist _ _) hsorted
  · intro c hc
    have h1 : c ∈ (insertCandidates []
        (pages.flatMap (fun page => pageCandidates keywords page))).mergeSort
          (fun a b => decide (b.score ≤ a.score)) :=
      (List.take_sublist _ _).mem hc
    have h2 := hperm.mem_iff.mp h1
    rcases insertCandidates_mem _ _ _ h2 with h3 | h3
    · simp at h3
    · exact h3

/-- Witness for C8: on one concrete page with one keyword hit, the
generated window survives to the output and the subset property holds at
it. -/
theorem sectionFinder_dedup_invariant_witness :
    (⟨"il valore", 1, 0, 9, ["valore"], false, 1⟩ : SectionCandidate)
      ∈ ([⟨1, "il valore"⟩] : List PageText).flatMap
          (fun page => pageCandidates ["valore"] page) := by
  refine (sectionFinder_dedup_invariant ["valore"] [⟨1, "il valore"⟩] 5).2
    ⟨"il valore", 1, 0, 9, ["valore"], false, 1⟩ ?_
  have hins : insertCandidates []
      (([⟨1, "il valore"⟩] : List PageText).flatMap (fun page => pageCandidates ["valore"] page))
      = [⟨"il valore", 1, 0, 9, ["valore"], false, 1⟩] := by decide
  unfold findSectionCandidates
  rw [hins, List.mergeSort_singleton]
  decide

/-! ## Expert-value extractor (`src/lib/extraction/field-extractors.ts`)

`extractExpertValue` consumes the section candidates found for the
`expertValue` field.  The amount and date extraction applied to the chosen
window (regex scans over its text) are abstracted as the function
parameters `amountsOf` / `datesOf`; the candidate list is the output of
`findSectionCandidates`. -/

/-- `Citation` of `src/types`. -/
structure Citation where
  page : Nat
  snippet : String
  startOffset : Nat
  endOffset : Nat
deriving DecidableEq

/-- `makeCitation` (field-extractors.ts). -/
def makeCitation (candidate : SectionCandidate) (snippetLength : Nat) : Citation :=
  ⟨candidate.page, strTrim (String.mk (candidate.text.data.take snippetLength)),
   candidate.startOffset, candidate.endOffset⟩

/-- `Candidate` of `src/types` as built inside `extractExpertValue`. -/
structure ExpertCandidate where
  value : ℚ
  confidence : ℚ
  reason : String
  citations : List Citation
deriving DecidableEq

/-- The `range` field of `ExpertValue`. -/
structure ValueRange where
  min : ℚ
  max : ℚ
deriving DecidableEq

/-- `ExpertValue` of `src/types`. -/
structure ExpertValue where
  valore : Option ℚ
  valoreRaw : Option String
  valuta : String
  range : Option ValueRange
  tipo : String
  dataContesto : Option String
  confidence : ℚ
  reason : String
  citations : List Citation
  candidates : List ExpertCandidate
deriving DecidableEq

/-- The fixed `valuePriority` phrase list of `extractExpertValue`. -/
def valuePriority : List String :=
  ["valore di stima", "valore di perizia", "più probabile valore", "valore stimato",
   "valore di mercato", "valore venale", "valore commerciale", "prezzo base", "base d'asta"]

/-- The selection loop of `extractExpertValue` as the source writes it:
for each section in order, the first priority phrase contained in its
lower-cased text overwrites `(bestSection, bestType)` unconditionally, so
the last section containing any phrase wins. -/
def selectValueSection (s0 : SectionCandidate) (sections : List SectionCandidate) :
    SectionCandidate × String :=
  sections.foldl (fun best sec =>
    match valuePriority.find? (fun v => containsStr (strToLower sec.text) v) with
    | some v => (sec, v)
    | none => best) (s0, "valore di stima")

/-- The selection loop's behaviour stated directly: the last section (in
candidate order) whose text contains some priority phrase is chosen,
labelled with its own highest-priority phrase; if no section matches, the
first section with the default label. -/
def selectValueSectionSpec (s0 : SectionCandidate) (sections : List SectionCandidate) :
    SectionCandidate × String :=
  match sections.reverse.find?
      (fun sec => valuePriority.any (fun v => containsStr (strToLower sec.text) v)) with
  | some sec =>
    (sec, (valuePriority.find? (fun v => containsStr (strToLower sec.text) v)).getD
      "valore di stima")
  | none => (s0, "valore di stima")

/-- The descending-by-value sort used on extracted amounts. -/
def sortAmountsDesc (amounts : List ExtractedAmount) : List ExtractedAmount :=
  amounts.mergeSort (fun a b => decide (b.value ≤ a.value))

/-- Translation of `extractExpertValue` (field-extractors.ts). -/
def extractExpertValue (amountsOf : String → List ExtractedAmount)
    (datesOf : String → List ExtractedDate) (sections : List SectionCandidate) : ExpertValue :=
  match sections with
  | [] =>
    ⟨none, none, "EUR", none, "Non rilevato", none, 0,
     "Nessun keyword match trovato. Cerca in: determinazione del valore, valore di stima, prezzo base, base d'asta.",
     [], []⟩
  | s0 :: rest =>
    let best := selectValueSection s0 (s0 :: rest)
    let bestSection := best.1
    let bestType := best.2
    let confidence := calculateConfidence bestSection (s0 :: rest).length
    let amounts := amountsOf bestSection.text
    let dates := datesOf bestSection.text
    let sortedAmounts := sortAmountsDesc amounts
    let primaryAmount := sortedAmounts.head?
    let range : Option ValueRange :=
      if 2 ≤ sortedAmounts.length then
        some ⟨((sortedAmounts.getLast?).map (fun a => a.value)).getD 0,
              ((sortedAmounts.head?).map (fun a => a.value)).getD 0⟩
      else none
    ⟨primaryAmount.map (fun a => a.value),
     primaryAmount.map (fun a => a.raw),
     "EUR", range, bestType,
     (dates.head?).map (fun d => d.normalized),
     (match primaryAmount with
      | some _ => confidence
      | none => max (confidence - 1/5) 0),
     "Tipo: " ++ bestType ++ ". "
       ++ (match primaryAmount with
           | some a => "Importo: " ++ a.raw
           | none => "Nessun importo trovato")
       ++ ". Keywords: " ++ String.intercalate ", " bestSection.matchedKeywords,
     [makeCitation bestSection 300],
     ((s0 :: rest).take 3).map (fun s =>
       ⟨(((sortAmountsDesc (amountsOf s.text)).head?).map (fun a => a.value)).getD 0,
        calculateConfidence s (s0 :: rest).length,
        "Keywords: " ++ String.intercalate ", " s.matchedKeywords,
        [makeCitation s 200]⟩)⟩

theorem selectValueSection_eq (s0 : SectionCandidate) (sections : List SectionCandidate) :
    selectValueSection s0 sections = selectValueSectionSpec s0 sections := by
  induction sections using List.reverseRecOn with
  | nil => rfl
  | append_singleton l x ih =>
    unfold selectValueSection selectValueSectionSpec at ih ⊢
    rw [List.foldl_append, List.reverse_append]
    simp only [List.foldl_cons, List.foldl_nil, List.reverse_cons, List.reverse_nil,
      List.nil_append, List.singleton_append]
    cases hfx : valuePriority.find? (fun v => containsStr (strToLower x.text) v) with
    | some v =>
      have hany : valuePriority.any (fun v => containsStr (strToLower x.text) v) = true := by
        rw [List.any_eq_true]
        exact ⟨v, List.mem_of_find?_eq_some hfx, List.find?_some hfx⟩
      have hfind : List.find?
          (fun sec => valuePriority.any (fun v => containsStr (strToLower sec.text) v))
          (x :: l.reverse) = some x := List.find?_cons_of_pos _ hany
      rw [hfind]
      simp [hfx]
    | none =>
      have hany : ¬ valuePriority.any (fun v => containsStr (strToLower x.text) v) = true := by
        rw [List.any_eq_true]
        rintro ⟨v, hv, hpv⟩
        exact (List.find?_eq_none.mp hfx v hv) hpv
      have hfind : List.find?
          (fun sec => valuePriority.any (fun v => containsStr (strToLower sec.text) v))
          (x :: l.reverse) = List.find?
            (fun sec => valuePriority.any (fun v => containsStr (strToLower sec.text) v))
            l.reverse := List.find?_cons_of_neg _ hany
      rw [hfind]
      exact ih

theorem sortAmountsDesc_pairwise (l : List ExtractedAmount) :
    List.Pairwise (fun a b : ExtractedAmount => b.value ≤ a.value) (sortAmountsDesc l) := by
  have hpair := @List.sorted_mergeSort ExtractedAmount (fun a b => decide (b.value ≤ a.value))
    (fun a b c h1 h2 => by
      simp only [decide_eq_true_eq] at *
      linarith)
    (fun a b => by
      rcases le_total b.value a.value with h | h <;> simp [h])
    l
  exact hpair.imp (fun h => by simpa using h)

theorem sortAmountsDesc_head (l : List ExtractedAmount) (x : ExtractedAmount)
    (hx : (sortAmountsDesc l).head? = some x) :
    x ∈ l ∧ ∀ a ∈ l, a.value ≤ x.value := by
  have hperm : (sortAmountsDesc l).Perm l := List.mergeSort_perm l _
  have hpair := sortAmountsDesc_pairwise l
  obtain ⟨ys, hys⟩ := List.head?_eq_some_iff.mp hx
  constructor
  · exact hperm.mem_iff.mp (by rw [hys]; exact List.mem_cons_self x ys)
  · intro a ha
    have ha2 : a ∈ x :: ys := by rw [← hys]; exact hperm.mem_iff.mpr ha
    rcases List.mem_cons.mp ha2 with rfl | hmem
    · exact le_refl _
    · rw [hys] at hpair
      exact List.rel_of_pairwise_cons hpair hmem

theorem sortAmountsDesc_last (l : List ExtractedAmount) (y : ExtractedAmount)
    (hy : (sortAmountsDesc l).getLast? = some y) :
    y ∈ l ∧ ∀ a ∈ l, y.value ≤ a.value := by
  have hperm : (sortAmountsDesc l).Perm l := List.mergeSort_perm l _
  have hpair := sortAmountsDesc_pairwise l
  obtain ⟨ys, hys⟩ := List.getLast?_eq_some_iff.mp hy
  rw [hys] at hpair
  rw [List.pairwise_append] at hpair
  obtain ⟨-, -, hrel⟩ := hpair
  constructor
  · exact hperm.mem_iff.mp (by rw [hys]; exact List.mem_append.mpr (Or.inr (List.mem_singleton_self y)))
  · intro a ha
    have ha2 : a ∈ ys ++ [y] := by rw [← hys]; exact hperm.mem_iff.mpr ha
    rcases List.mem_append.mp ha2 with hmem | hmem
    · exact hrel a hmem y (List.mem_singleton_self y)
    · rw [List.mem_singleton.mp hmem]

/-- C5 counterexample: with a first window containing the top-priority
phrase "valore di stima" and a later window containing only the
lowest-priority phrase "base d'asta", the extractor labels and cites the
later window — the highest-priority window is not the one selected. -/
theorem extractExpertValue_priority_counterexample :
    (extractExpertValue (fun _ => []) (fun _ => [])
        [⟨"Valore di stima: alto", 1, 0, 21, [], false, 0⟩,
         ⟨"base d'asta: 100", 2, 0, 16, [], false, 0⟩]).tipo = "base d'asta"
    ∧ (extractExpertValue (fun _ => []) (fun _ => [])
        [⟨"Valore di stima: alto", 1, 0, 21, [], false, 0⟩,
         ⟨"base d'asta: 100", 2, 0, 16, [], false, 0⟩]).tipo ≠ "valore di stima"
    ∧ ((extractExpertValue (fun _ => []) (fun _ => [])
        [⟨"Valore di stima: alto", 1, 0, 21, [], false, 0⟩,
         ⟨"base d'asta: 100", 2, 0, 16, [], false, 0⟩]).citations.map (fun c => c.page)) = [2]
    ∧ containsStr (strToLower "Valore di stima: alto") "valore di stima" = true := by
  refine ⟨by decide, by decide, by decide, by decide⟩

/-- C5 (amended): for every non-empty candidate list, the selection loop
keeps the last candidate (in list order) containing any priority phrase,
labelled with that candidate's own highest-priority phrase (first
candidate and "valore di stima" when none matches); from the selected
window it extracts all amounts, the primary value is the maximum amount,
and a min/max range over the window's amounts is set exactly when the
window contains two or more amounts. -/
theorem extractExpertValue_selection_and_range
    (amountsOf : String → List ExtractedAmount) (datesOf : String → List ExtractedDate)
    (s0 : SectionCandidate) (rest : List SectionCandidate) :
    (∀ (t0 : SectionCandidate) (l : List SectionCandidate),
        selectValueSection t0 l = selectValueSectionSpec t0 l)
    ∧ (extractExpertValue amountsOf datesOf (s0 :: rest)).tipo
        = (selectValueSectionSpec s0 (s0 :: rest)).2
    ∧ (extractExpertValue amountsOf datesOf (s0 :: rest)).citations
        = [makeCitation (selectValueSectionSpec s0 (s0 :: rest)).1 300]
    ∧ ((extractExpertValue amountsOf datesOf (s0 :: rest)).valore = none
        ↔ amountsOf (selectValueSectionSpec s0 (s0 :: rest)).1.text = [])
    ∧ (∀ v, (extractExpertValue amountsOf datesOf (s0 :: rest)).valore = some v →
        v ∈ (amountsOf (selectValueSectionSpec s0 (s0 :: rest)).1.text).map (fun a => a.value)
          ∧ ∀ a ∈ amountsOf (selectValueSectionSpec s0 (s0 :: rest)).1.text, a.value ≤ v)
    ∧ ((extractExpertValue amountsOf datesOf (s0 :: rest)).range.isSome
        ↔ 2 ≤ (amountsOf (selectValueSectionSpec s0 (s0 :: rest)).1.text).length)
    ∧ (∀ r, (extractExpertValue amountsOf datesOf (s0 :: rest)).range = some r →
        r.max ∈ (amountsOf (selectValueSectionSpec s0 (s0 :: rest)).1.text).map (fun a => a.value)
          ∧ r.min ∈ (amountsOf (selectValueSectionSpec s0 (s0 :: rest)).1.text).map
              (fun a => a.value)
          ∧ ∀ a ∈ amountsOf (selectValueSectionSpec s0 (s0 :: rest)).1.text,
              r.min ≤ a.value ∧ a.value ≤ r.max) := by
  have hsel := selectValueSection_eq s0 (s0 :: rest)
  have hperm : (sortAmountsDesc (amountsOf (selectValueSectionSpec s0 (s0 :: rest)).1.text)).Perm
      (amountsOf (selectValueSectionSpec s0 (s0 :: rest)).1.text) := List.mergeSort_perm _ _
  refine ⟨selectValueSection_eq, ?_, ?_, ?_, ?_, ?_, ?_⟩
  · simp only [extractExpertValue, hsel]
  · simp only [extractExpertValue, hsel]
  · simp only [extractExpertValue, hsel]
    rw [Option.map_eq_none', List.head?_eq_none_iff]
    constructor
    · intro h
      have := hperm.length_eq
      rw [h] at this
      exact List.length_eq_zero.mp this.symm
    · intro h
      rw [← List.length_eq_zero, hperm.length_eq, h]
      rfl
  · intro v hv
    simp only [extractExpertValue, hsel] at hv
    rw [Option.map_eq_some'] at hv
    obtain ⟨x, hx, rfl⟩ := hv
    obtain ⟨hmem, hmax⟩ := sortAmountsDesc_head _ x hx
    exact ⟨List.mem_map.mpr ⟨x, hmem, rfl⟩, hmax⟩
  · simp only [extractExpertValue, hsel]
    rw [← hperm.length_eq]
    split_ifs with h2
    · simpa using h2
    · simpa using h2
  · intro r hr
    simp only [extractExpertValue, hsel] at hr
    split_ifs at hr with h2
    · have hinj := Option.some.inj hr
      obtain ⟨x, hx⟩ : ∃ x, (sortAmountsDesc
          (amountsOf (selectValueSectionSpec s0 (s0 :: rest)).1.text)).head? = some x := by
        cases hs : (sortAmountsDesc (amountsOf (selectValueSectionSpec s0 (s0 :: rest)).1.text)) with
        | nil => rw [hs] at h2; simp at h2
        | cons a t => exact ⟨a, rfl⟩
      obtain ⟨y, hy⟩ : ∃ y, (sortAmountsDesc
          (amountsOf (selectValueSectionSpec s0 (s0 :: rest)).1.text)).getLast? = some y := by
        cases hs : (sortAmountsDesc (amountsOf (selectValueSectionSpec s0 (s0 :: rest)).1.text)) with
        | nil => rw [hs] at h2; simp at h2
        | cons a t => exact ⟨(a :: t).getLast (by simp), List.getLast?_eq_getLast _ _⟩
      obtain ⟨hxm, hxmax⟩ := sortAmountsDesc_head _ x hx
      obtain ⟨hym, hymin⟩ := sortAmountsDesc_last _ y hy
      have hmax : r.max = x.value := by rw [← hinj]; simp [hx]
      have hmin : r.min = y.value := by rw [← hinj]; simp [hy]
      rw [hmax, hmin]
      exact ⟨List.mem_map.mpr ⟨x, hxm, rfl⟩, List.mem_map.mpr ⟨y, hym, rfl⟩,
        fun a ha => ⟨hymin a ha, hxmax a ha⟩⟩

/-- A sample window-amount extractor returning two amounts. -/
def sampleAmountsOf : String → List ExtractedAmount :=
  fun _ => [⟨"€ 5", 5, 0⟩, ⟨"€ 7", 7, 10⟩]

/-- A sample window-date extractor returning no dates. -/
def sampleDatesOf : String → List ExtractedDate := fun _ => []

/-- A sample section candidate containing the top-priority phrase. -/
def sampleValueSection : SectionCandidate :=
  ⟨"valore di stima €", 1, 0, 17, ["valore"], false, 1⟩

unseal List.merge List.mergeSort in
/-- Witness for C5: on one concrete window containing two amounts, the
primary value 7 is the maximum of the window's amounts and the range
⟨5, 7⟩ covers them. -/
theorem extractExpertValue_selection_and_range_witness :
    ((7 : ℚ) ∈ (sampleAmountsOf
        (selectValueSectionSpec sampleValueSection [sampleValueSection]).1.text).map
          (fun a => a.value)
      ∧ ∀ a ∈ sampleAmountsOf
          (selectValueSectionSpec sampleValueSection [sampleValueSection]).1.text, a.value ≤ 7)
    ∧ ((⟨5, 7⟩ : ValueRange).max ∈ (sampleAmountsOf
          (selectValueSectionSpec sampleValueSection [sampleValueSection]).1.text).map
            (fun a => a.value)
        ∧ (⟨5, 7⟩ : ValueRange).min ∈ (sampleAmountsOf
            (selectValueSectionSpec sampleValueSection [sampleValueSection]).1.text).map
              (fun a => a.value)
        ∧ ∀ a ∈ sampleAmountsOf
            (selectValueSectionSpec sampleValueSection [sampleValueSection]).1.text,
            (⟨5, 7⟩ : ValueRange).min ≤ a.value ∧ a.value ≤ (⟨5, 7⟩ : ValueRange).max) := by
  constructor
  · exact (extractExpertValue_selection_and_range sampleAmountsOf sampleDatesOf
      sampleValueSection []).2.2.2.2.1 7 (by decide)
  · exact (extractExpertValue_selection_and_range sampleAmountsOf sampleDatesOf
      sampleValueSection []).2.2.2.2.2.2 ⟨5, 7⟩ (by decide)

end Perizia

